import Mathlib

/-!
Verification of the acquisition-and-validation pipeline of this repository
against its specification.  The Python sources are shallowly embedded:

* `lab_5_scraper/scraper.py`: `Crawler.find_articles` (the seed traversal
  with order-preserving de-duplication, quota early exit and shortfall
  padding), `make_request` (the fetch wrapper with its post-fetch sleep),
  `Config._validate_config_content` (validation of dynamically typed JSON
  values) and `HTMLParser._fill_article_with_meta_information` (the author
  extraction loop).
* `lab_6_pipeline/pipeline.py`: `CorpusManager._validate_dataset` /
  `_scan_dataset` and `TextProcessingPipeline.__init__` / `run`.

External collaborators (the network, BeautifulSoup, the file system
enumeration order of `Path.glob`, the UDPipe model) enter the embedding as
explicit inputs: a seed page is the list of matching anchor targets it
yields (or `none` when the fetch is skipped), a directory is the list of
files that `glob` returns in enumeration order, an analyzer is a function
on lists of texts.
-/

/-! ### Crawler (`lab_5_scraper/scraper.py`, `Crawler.find_articles`)

A seed outcome is `none` when the fetch raised `requests.RequestException`
or returned a status other than 200 (the seed is skipped), and
`some anchors` when the page was fetched: `anchors` lists, in document
order, the absolute URL obtained for each anchor whose `href` matches the
article pattern and is non-empty after stripping. -/

/-- One step of the body of the anchor loop: `if full_url not in self.urls:
self.urls.append(full_url)`. -/
def insertUnique (urls : List String) (u : String) : List String :=
  if u ∈ urls then urls else urls ++ [u]

/-- The inner `for a_tag in found` loop of `find_articles`: append each
anchor target if absent, and after each step return (flag `true`) as soon
as `len(self.urls) >= required`. -/
def dedupUpTo (required : Nat) : List String → List String → List String × Bool
  | urls, [] => (urls, false)
  | urls, a :: rest =>
    let urls' := insertUnique urls a
    if required ≤ urls'.length then (urls', true)
    else dedupUpTo required urls' rest

/-- The outer `for seed_url in self.config.get_seed_urls()` loop.  Returns
the accumulated url list, the number of seeds fetched (every element of
the seed list costs one `make_request` when reached), and whether the loop
ended via the early `return`. -/
def findArticlesSeeds (required : Nat) :
    List (Option (List String)) → List String → List String × Nat × Bool
  | [], urls => (urls, 0, false)
  | Option.none :: rest, urls =>
    let r := findArticlesSeeds required rest urls
    (r.1, r.2.1 + 1, r.2.2)
  | some anchors :: rest, urls =>
    let p := dedupUpTo required urls anchors
    if p.2 then (p.1, 1, true)
    else
      let r := findArticlesSeeds required rest p.1
      (r.1, r.2.1 + 1, r.2.2)

/-- `Crawler.find_articles`: traverse the seeds starting from an empty url
list, then apply the shortfall policy `if self.urls and len(self.urls) <
required: ... append last`. -/
def find_articles (required : Nat) (seeds : List (Option (List String))) : List String :=
  let urls := (findArticlesSeeds required seeds []).1
  if urls ≠ [] ∧ urls.length < required then
    urls ++ List.replicate (required - urls.length) (urls.getLastD "")
  else urls

/-- Number of seeds actually fetched by a run of `find_articles`. -/
def fetchedSeeds (required : Nat) (seeds : List (Option (List String))) : Nat :=
  (findArticlesSeeds required seeds []).2.1

/-- The stream of candidate urls contributed by the successfully fetched
seeds, in traversal order. -/
def allAnchors (seeds : List (Option (List String))) : List String :=
  (seeds.filterMap id).flatten

/-- The distinct urls the seeds together yield, in order of first
discovery (order-preserving de-duplication of `allAnchors`). -/
def discovered (seeds : List (Option (List String))) : List String :=
  (allAnchors seeds).foldl insertUnique []

/-! ### FetchClient (`lab_5_scraper/scraper.py`, `make_request`)

`make_request` calls `requests.get`; a raised `ValueError` is re-raised,
any other exception propagates, and only on a returned response does the
function set the encoding, `time.sleep(1)` and return.  The outcome of the
underlying `requests.get` call is the input of the embedding; the result
records the returned value or raised error together with the number of
time units slept inside `make_request`. -/

/-- Outcome of the underlying `requests.get` call. -/
inductive FetchOutcome where
  | response (status : Nat) (text : String)
  | valueError
  | transportError
  deriving DecidableEq

/-- Error raised out of `make_request`. -/
inductive RequestError where
  | valueError
  | requestException
  deriving DecidableEq

/-- `make_request`: second component counts the time units slept before
control leaves the function. -/
def make_request (outcome : FetchOutcome) : Except RequestError (Nat × String) × Nat :=
  match outcome with
  | .response status text => (.ok (status, text), 1)
  | .valueError => (.error .valueError, 0)
  | .transportError => (.error .requestException, 0)

/-! ### ConfigValidator (`lab_5_scraper/scraper.py`, `Config`)

Configuration fields are dynamically typed JSON values; `PyVal` embeds the
Python values that can appear, with `isinstance` tests mirroring the
Python subtyping rule that `bool` is a subclass of `int`. -/

/-- A dynamically typed Python value as read from the JSON configuration. -/
inductive PyVal where
  | pynone
  | bool (b : Bool)
  | int (n : Int)
  | str (s : String)
  | list (xs : List PyVal)
  | dict (kvs : List (PyVal × PyVal))

/-- Python `isinstance(v, int)`: in Python, `bool` is a subclass of `int`. -/
def isInstInt : PyVal → Bool
  | .int _ => true
  | .bool _ => true
  | _ => false

/-- Python `isinstance(v, bool)`. -/
def isInstBool : PyVal → Bool
  | .bool _ => true
  | _ => false

/-- Python `isinstance(v, str)`. -/
def isInstStr : PyVal → Bool
  | .str _ => true
  | _ => false

/-- Python `isinstance(v, dict)`. -/
def isInstDict : PyVal → Bool
  | .dict _ => true
  | _ => false

/-- Python `isinstance(v, list)`. -/
def isInstList : PyVal → Bool
  | .list _ => true
  | _ => false

/-- Numeric value of an `int`-instance value (`True == 1`, `False == 0`);
comparisons in the validator only reach this after the `isinstance`
test. -/
def pyIntValue : PyVal → Int
  | .int n => n
  | .bool b => if b then 1 else 0
  | _ => 0

/-- ASCII reading of the regex class `\w`. -/
def isWordChar (c : Char) : Bool := c.isAlphanum || c == '_'

/-- ASCII reading of the regex class `[\w\.-]`. -/
def isHostChar (c : Char) : Bool := isWordChar c || c == '.' || c == '-'

/-- Does `[\w\.-]+\.\w+` match a prefix of `cs`?  Existential over the
length of the `[\w\.-]+` run, which is how a backtracking engine searches. -/
def matchHostTail (cs : List Char) : Bool :=
  (List.range cs.length).any fun k =>
    (cs.take (k + 1)).all isHostChar &&
      match cs.drop (k + 1) with
      | '.' :: d :: _ => isWordChar d
      | _ => false

/-- Consume `https?://` at the start of the list. -/
def afterScheme : List Char → Option (List Char)
  | 'h' :: 't' :: 't' :: 'p' :: 's' :: ':' :: '/' :: '/' :: r => some r
  | 'h' :: 't' :: 't' :: 'p' :: ':' :: '/' :: '/' :: r => some r
  | _ => none

/-- `re.match(r'https?://(www\.)?[\w\.-]+\.\w+', url)` is truthy. -/
def matchUrlChars (cs : List Char) : Bool :=
  match afterScheme cs with
  | some r =>
    matchHostTail r ||
      match r with
      | 'w' :: 'w' :: 'w' :: '.' :: r2 => matchHostTail r2
      | _ => false
  | none => false

/-- The per-url test of the seed loop. -/
def urlOk (s : String) : Bool := matchUrlChars s.toList

/-- `not isinstance(url, str) or not re.match(...)` for one seed entry. -/
def seedUrlBad : PyVal → Bool
  | .str s => !urlOk s
  | _ => true

/-- Raising condition of the first checks of `_validate_config_content`:
`seed_urls` not a list, or some element failing the per-url test. -/
def seedUrlsBad : PyVal → Bool
  | .list xs => xs.any seedUrlBad
  | _ => true

/-- The exception kinds raised by `Config._validate_config_content`. -/
inductive ConfigError where
  | incorrectSeedURL
  | incorrectNumberOfArticles
  | numberOfArticlesOutOfRange
  | incorrectHeaders
  | incorrectEncoding
  | incorrectTimeout
  | incorrectVerify
  deriving DecidableEq

/-- The constants imported from `core_utils.constants`; that module is not
part of the sources, so the limits are inputs of the embedding. -/
structure Limits where
  numArticlesUpperLimit : Int
  timeoutLowerLimit : Int
  timeoutUpperLimit : Int

/-- The fields of `ConfigDTO` in the order `_validate_config_content`
examines them. -/
structure PyConfigDTO where
  seed_urls : PyVal
  total_articles : PyVal
  headers : PyVal
  encoding : PyVal
  timeout : PyVal
  should_verify_certificate : PyVal
  headless_mode : PyVal

/-- `Config._validate_config_content`, raising the first applicable
exception in source order. -/
def validate_config_content (L : Limits) (dto : PyConfigDTO) : Except ConfigError Unit :=
  if seedUrlsBad dto.seed_urls then .error .incorrectSeedURL
  else if isInstInt dto.total_articles = false ∨ pyIntValue dto.total_articles ≤ 0 then
    .error .incorrectNumberOfArticles
  else if L.numArticlesUpperLimit < pyIntValue dto.total_articles then
    .error .numberOfArticlesOutOfRange
  else if isInstDict dto.headers = false then .error .incorrectHeaders
  else if isInstStr dto.encoding = false then .error .incorrectEncoding
  else if isInstInt dto.timeout = false ∨ pyIntValue dto.timeout < L.timeoutLowerLimit
      ∨ L.timeoutUpperLimit < pyIntValue dto.timeout then .error .incorrectTimeout
  else if isInstBool dto.should_verify_certificate = false then .error .incorrectVerify
  else if isInstBool dto.headless_mode = false then .error .incorrectVerify
  else .ok ()

/-- The private attributes `Config.__init__` copies out of the DTO after
validation succeeded. -/
structure ConfigObj where
  seedUrlsV : PyVal
  numArticlesV : PyVal
  headersV : PyVal
  encodingV : PyVal
  timeoutV : PyVal
  verifyV : PyVal
  headlessV : PyVal

/-- `Config.__init__`: validate, then store the DTO fields. -/
def config_init (L : Limits) (dto : PyConfigDTO) : Except ConfigError ConfigObj :=
  match validate_config_content L dto with
  | .error e => .error e
  | .ok _ => .ok ⟨dto.seed_urls, dto.total_articles, dto.headers, dto.encoding,
      dto.timeout, dto.should_verify_certificate, dto.headless_mode⟩

/-- `Config.get_num_articles`. -/
def get_num_articles (c : ConfigObj) : PyVal := c.numArticlesV

/-! ### ArticleExtractor author field (`lab_5_scraper/scraper.py`,
`HTMLParser._fill_article_with_meta_information`)

A page is embedded as the list of its `<p>` elements carrying an optional
`align` attribute and the text of their first `<strong>` descendant, if
any.  `Article.__init__` (in the external `core_utils` package) starts the
record with an empty `author` list, so the loop appends to `[]`. -/

/-- One `<p>` element of the page. -/
structure PBlock where
  align : Option String
  strongText : Option String
  deriving DecidableEq

/-- Python `str.strip()`: drop whitespace from both ends (expressed over
the character list so that it reduces definitionally). -/
def pyStrip (s : String) : String :=
  ⟨((s.toList.dropWhile Char.isWhitespace).reverse.dropWhile Char.isWhitespace).reverse⟩

/-- The `for author_tag in author_tags` loop: skip tags without a
`<strong>` run, append the stripped text otherwise, tracking the
`found_author` flag. -/
def authorLoop : List PBlock → List String → Bool → List String × Bool
  | [], author, found => (author, found)
  | b :: rest, author, found =>
    match b.strongText with
    | none => authorLoop rest author found
    | some s => authorLoop rest (author ++ [pyStrip s]) true

/-- The author part of `_fill_article_with_meta_information`:
`find_all('p', align='right')`, the loop, then the sentinel when nothing
was found. -/
def fill_author (blocks : List PBlock) : List String :=
  let tags := blocks.filter fun b => b.align == some "right"
  let r := authorLoop tags [] false
  if r.2 then r.1 else r.1 ++ ["NOT FOUND"]

/-- The blocks matching the signature pattern of the spec: a right-aligned
paragraph containing a bolded run. -/
def signatureBlocks (blocks : List PBlock) : List PBlock :=
  blocks.filter fun b => b.align == some "right" && b.strongText.isSome

/-! ### CorpusManager (`lab_6_pipeline/pipeline.py`)

A storage path is either absent, not a directory, or a directory whose
`glob('*_raw.txt')` matches are listed in enumeration order; each match is
embedded by its stem (the file name without `.txt`), its byte size and its
raw text.  Decimal parsing of the stem head reproduces `int(...)` and
`str.isdigit()` for ASCII names; a name that `int()` cannot parse raises
`ValueError`, embedded as `LoadError.valueError`. -/

/-- Python `int(s)` evaluation on an all-digit string: decimal fold. -/
def parseDigitsChars (cs : List Char) : Nat :=
  cs.foldl (fun a c => 10 * a + (c.toNat - 48)) 0

/-- Python `s.isdigit()` for ASCII strings. -/
def pyIsDigit (cs : List Char) : Bool := !cs.isEmpty && cs.all Char.isDigit

/-- The whitespace stripping `int()` performs on its argument. -/
def pyStripWs (cs : List Char) : List Char :=
  ((cs.dropWhile Char.isWhitespace).reverse.dropWhile Char.isWhitespace).reverse

/-- The optional leading plus sign `int()` accepts. -/
def pyStripSign (cs : List Char) : List Char :=
  if cs.head? = some '+' then cs.tail else cs

/-- Python `int(s)`: optional surrounding whitespace, an optional leading
`+`, then a non-empty digit run.  `int()` also parses `-`-signed numerals
to negative ints; those lie outside this embedding, whose storage keys
are naturals, and no dataset mentioned by a theorem below contains one.
A string `int()` rejects raises `ValueError`, embedded as `none`. -/
def pyInt (cs : List Char) : Option Nat :=
  if ¬ (pyStripSign (pyStripWs cs)).isEmpty ∧ (pyStripSign (pyStripWs cs)).all Char.isDigit
  then some (parseDigitsChars (pyStripSign (pyStripWs cs))) else none

/-- One file matched by `glob('*_raw.txt')`. -/
structure RawFile where
  stem : List Char
  size : Nat
  text : String
  deriving DecidableEq

/-- `f.stem.split('_')[0]`: the characters before the first underscore. -/
def stemHead (f : RawFile) : List Char := f.stem.takeWhile fun c => c ≠ '_'

/-- The state of the dataset path handed to `CorpusManager`. -/
inductive PathState where
  | missing
  | notDirectory
  | directory (files : List RawFile)

/-- The exceptions `CorpusManager.__init__` can raise. -/
inductive LoadError where
  | fileNotFound
  | notADirectory
  | emptyDirectory
  | inconsistentDataset
  | valueError
  deriving DecidableEq

/-- `ids = [int(f.stem.split('_')[0]) for f in files if
f.stem.split('_')[0].isdigit()]`. -/
def digitIds (files : List RawFile) : List Nat :=
  (files.filter fun f => pyIsDigit (stemHead f)).map fun f => parseDigitsChars (stemHead f)

/-- `CorpusManager._validate_dataset`; Python `sorted(ids)` is embedded as
insertion sort, which agrees with any ascending sort of a list of
naturals. -/
def validate_dataset (p : PathState) : Except LoadError Unit :=
  match p with
  | .missing => .error .fileNotFound
  | .notDirectory => .error .notADirectory
  | .directory files =>
    if files.isEmpty then .error .emptyDirectory
    else if List.insertionSort (fun a b => a ≤ b) (digitIds files)
          ≠ List.range' 1 (digitIds files).length
        ∨ files.any (fun f => f.size == 0) then .error .inconsistentDataset
    else .ok ()

/-- Python dict assignment `storage[k] = v` on an insertion-ordered
association list. -/
def dictInsert (store : List (Nat × String)) (k : Nat) (v : String) : List (Nat × String) :=
  if store.any (fun p => p.1 == k) then
    store.map fun p => if p.1 == k then (k, v) else p
  else store ++ [(k, v)]

/-- The loop of `CorpusManager._scan_dataset`; note it parses the stem
with `int(...)` without the digit guard of the validator. -/
def scanLoop : List RawFile → List (Nat × String) → Except LoadError (List (Nat × String))
  | [], store => .ok store
  | f :: rest, store =>
    match pyInt (stemHead f) with
    | some k => scanLoop rest (dictInsert store k f.text)
    | none => .error .valueError

/-- `CorpusManager.__init__`: `_validate_dataset` then `_scan_dataset`;
`get_articles` returns the resulting storage. -/
def corpus_manager_init (p : PathState) : Except LoadError (List (Nat × String)) :=
  match validate_dataset p with
  | .error e => .error e
  | .ok _ =>
    match p with
    | .directory files => scanLoop files []
    | _ => .ok []

/-- Big-endian decimal digit expansion, fuel-driven so that it reduces
definitionally; `natDigitsCore (n + 1) n` is the digit list of `n`. -/
def natDigitsCore : Nat → Nat → List Nat
  | 0, _ => []
  | fuel + 1, n => if n = 0 then [] else natDigitsCore fuel (n / 10) ++ [n % 10]

/-- The decimal numeral of `n` as Python string formatting prints it. -/
def natChars (n : Nat) : List Char := (natDigitsCore (n + 1) n).map Nat.digitChar

/-- The stem of the file the dataset contract stores article `i` under:
`f"{i}_raw.txt"` without the suffix. -/
def rawStem (i : Nat) : List Char := natChars i ++ '_' :: "raw".toList

/-! ### AnnotationPipeline (`lab_6_pipeline/pipeline.py`,
`TextProcessingPipeline`)

The analyzer is an optional function on lists of texts (`analyze`).  The
run is embedded as the record of its observable effects: the texts handed
to the analyzer in storage iteration order, the ids written by
`io.to_cleaned`, the per-article attachment performed by
`set_conllu_info`, and the ids for which `analyzer.to_conllu` ran. -/

/-- Observable effects of one `TextProcessingPipeline.run` call. -/
structure RunResult where
  texts : List String
  cleaned : List Nat
  attached : List (Nat × Option String)
  conlluSaved : List Nat
  analyzeRan : Bool

/-- `TextProcessingPipeline.run` over the storage in its iteration
order. -/
def pipelineRun (storage : List (Nat × String))
    (analyzer : Option (List String → List String)) : RunResult :=
  let texts := storage.map Prod.snd
  let pre : Option (List String) := analyzer.map fun f => f texts
  { texts := texts
    cleaned := storage.map Prod.fst
    attached := storage.map fun p =>
      (p.1, match pre with
        | some res => if p.1 - 1 < res.length then some (res.getD (p.1 - 1) "") else none
        | none => none)
    conlluSaved := match analyzer with
      | some _ => storage.map Prod.fst
      | none => []
    analyzeRan := analyzer.isSome }

/-- `UDPipeAnalyzer.analyze`: one result per text, via the external
model. -/
def udpipe_analyze (model : String → String) (texts : List String) : List String :=
  texts.map model

/-- `TextProcessingPipeline.__init__`: `analyzer if analyzer is not None
else UDPipeAnalyzer()`. -/
def pipelineInit (analyzer : Option (List String → List String))
    (model : String → String) : Option (List String → List String) :=
  match analyzer with
  | some a => some a
  | none => some (udpipe_analyze model)

/-! ### Crawler lemmas -/

theorem length_le_insertUnique (urls : List String) (u : String) :
    urls.length ≤ (insertUnique urls u).length := by
  unfold insertUnique; split <;> simp

theorem insertUnique_append (urls : List String) (u : String) :
    ∃ t, insertUnique urls u = urls ++ t := by
  unfold insertUnique; split
  · exact ⟨[], by simp⟩
  · exact ⟨[u], rfl⟩

theorem length_le_foldl_insertUnique (l : List String) (urls : List String) :
    urls.length ≤ (l.foldl insertUnique urls).length := by
  induction l generalizing urls with
  | nil => simp
  | cons a t ih =>
    rw [List.foldl_cons]
    exact le_trans (length_le_insertUnique urls a) (ih _)

theorem foldl_insertUnique_append (l : List String) (urls : List String) :
    ∃ t, l.foldl insertUnique urls = urls ++ t := by
  induction l generalizing urls with
  | nil => exact ⟨[], by simp⟩
  | cons a t ih =>
    obtain ⟨t1, h1⟩ := insertUnique_append urls a
    obtain ⟨t2, h2⟩ := ih (insertUnique urls a)
    exact ⟨t1 ++ t2, by rw [List.foldl_cons, h2, h1, List.append_assoc]⟩

theorem take_foldl_insertUnique_of_ge (m : List String) (X : List String) (required : Nat)
    (h : required ≤ X.length) :
    (m.foldl insertUnique X).take required = X.take required := by
  obtain ⟨t, ht⟩ := foldl_insertUnique_append m X
  rw [ht, List.take_append_eq_append_take]
  have h0 : required - X.length = 0 := by omega
  simp [h0]

theorem nodup_foldl_insertUnique (l : List String) (urls : List String) (h : urls.Nodup) :
    (l.foldl insertUnique urls).Nodup := by
  induction l generalizing urls with
  | nil => exact h
  | cons a t ih =>
    rw [List.foldl_cons]
    apply ih
    unfold insertUnique; split
    · exact h
    · rw [List.nodup_append]
      exact ⟨h, List.nodup_singleton a, List.disjoint_singleton.mpr (by assumption)⟩

theorem dedupUpTo_of_lt (required : Nat) (l : List String) (urls : List String)
    (h : (l.foldl insertUnique urls).length < required) :
    dedupUpTo required urls l = (l.foldl insertUnique urls, false) := by
  induction l generalizing urls with
  | nil => simp [dedupUpTo]
  | cons a t ih =>
    rw [List.foldl_cons] at h ⊢
    have hle : (insertUnique urls a).length ≤ (t.foldl insertUnique (insertUnique urls a)).length :=
      length_le_foldl_insertUnique t (insertUnique urls a)
    have hnot : ¬ required ≤ (insertUnique urls a).length := by omega
    simp only [dedupUpTo, hnot, if_false]
    exact ih _ h

theorem dedupUpTo_of_ge (required : Nat) (l : List String) (urls : List String)
    (hu : urls.length < required)
    (h : required ≤ (l.foldl insertUnique urls).length) :
    dedupUpTo required urls l = ((l.foldl insertUnique urls).take required, true) := by
  induction l generalizing urls with
  | nil =>
    simp only [List.foldl_nil] at h
    omega
  | cons a t ih =>
    rw [List.foldl_cons] at h ⊢
    by_cases hc : required ≤ (insertUnique urls a).length
    · have happ : insertUnique urls a = urls ++ [a] := by
        by_cases hmem : a ∈ urls
        · exfalso
          unfold insertUnique at hc
          rw [if_pos hmem] at hc
          omega
        · unfold insertUnique; rw [if_neg hmem]
      have hlen : (insertUnique urls a).length = required := by
        rw [happ] at hc ⊢
        simp only [List.length_append, List.length_singleton] at hc ⊢
        omega
      obtain ⟨t2, h2⟩ := foldl_insertUnique_append t (insertUnique urls a)
      simp only [dedupUpTo, hc, if_true]
      rw [h2, ← hlen, List.take_left]
    · have hlt : (insertUnique urls a).length < required := by omega
      simp only [dedupUpTo, hc, if_false]
      exact ih _ hlt h

theorem allAnchors_cons_none (rest : List (Option (List String))) :
    allAnchors (none :: rest) = allAnchors rest := by
  simp [allAnchors]

theorem allAnchors_cons_some (anchors : List String) (rest : List (Option (List String))) :
    allAnchors (some anchors :: rest) = anchors ++ allAnchors rest := by
  simp [allAnchors]

theorem findArticlesSeeds_of_lt (required : Nat) (seeds : List (Option (List String)))
    (urls : List String)
    (h : ((allAnchors seeds).foldl insertUnique urls).length < required) :
    findArticlesSeeds required seeds urls =
      ((allAnchors seeds).foldl insertUnique urls, seeds.length, false) := by
  induction seeds generalizing urls with
  | nil => simp [findArticlesSeeds, allAnchors]
  | cons s rest ih =>
    match s with
    | none =>
      rw [allAnchors_cons_none] at h ⊢
      simp only [findArticlesSeeds, ih _ h, List.length_cons]
    | some anchors =>
      rw [allAnchors_cons_some, List.foldl_append] at h ⊢
      have h1 : (anchors.foldl insertUnique urls).length < required :=
        lt_of_le_of_lt (length_le_foldl_insertUnique _ _) h
      have hd := dedupUpTo_of_lt required anchors urls h1
      simp [findArticlesSeeds, hd, ih _ h]

theorem findArticlesSeeds_no_anchors (required : Nat) (seeds : List (Option (List String)))
    (urls : List String) (h : allAnchors seeds = []) :
    findArticlesSeeds required seeds urls = (urls, seeds.length, false) := by
  induction seeds with
  | nil => simp [findArticlesSeeds]
  | cons s rest ih =>
    match s with
    | none =>
      rw [allAnchors_cons_none] at h
      simp only [findArticlesSeeds, ih h, List.length_cons]
    | some anchors =>
      rw [allAnchors_cons_some, List.append_eq_nil] at h
      obtain ⟨h1, h2⟩ := h
      subst h1
      simp [findArticlesSeeds, dedupUpTo, ih h2]

theorem findArticlesSeeds_append_of_ge (required : Nat) (s₁ s₂ : List (Option (List String)))
    (urls : List String) (hu : urls.length < required)
    (h : required ≤ ((allAnchors s₁).foldl insertUnique urls).length) :
    findArticlesSeeds required (s₁ ++ s₂) urls = findArticlesSeeds required s₁ urls ∧
    (findArticlesSeeds required s₁ urls).1 =
      ((allAnchors s₁).foldl insertUnique urls).take required ∧
    (findArticlesSeeds required s₁ urls).2.1 ≤ s₁.length ∧
    (findArticlesSeeds required s₁ urls).2.2 = true := by
  induction s₁ generalizing urls with
  | nil =>
    simp only [allAnchors, List.filterMap_nil, List.flatten_nil, List.foldl_nil] at h
    omega
  | cons s rest ih =>
    match s with
    | none =>
      rw [allAnchors_cons_none] at h
      obtain ⟨ih1, ih2, ih3, ih4⟩ := ih urls hu h
      refine ⟨?_, ?_, ?_, ?_⟩
      · have e1 : findArticlesSeeds required ((none :: rest) ++ s₂) urls =
            ((findArticlesSeeds required (rest ++ s₂) urls).1,
             (findArticlesSeeds required (rest ++ s₂) urls).2.1 + 1,
             (findArticlesSeeds required (rest ++ s₂) urls).2.2) := rfl
        have e2 : findArticlesSeeds required (none :: rest) urls =
            ((findArticlesSeeds required rest urls).1,
             (findArticlesSeeds required rest urls).2.1 + 1,
             (findArticlesSeeds required rest urls).2.2) := rfl
        rw [e1, e2, ih1]
      · simp only [findArticlesSeeds, ih2, allAnchors_cons_none]
      · simp only [findArticlesSeeds, List.length_cons]
        omega
      · simp only [findArticlesSeeds, ih4]
    | some anchors =>
      rw [allAnchors_cons_some, List.foldl_append] at h
      by_cases hc : required ≤ (anchors.foldl insertUnique urls).length
      · have hd := dedupUpTo_of_ge required anchors urls hu hc
        have htake : ((allAnchors rest).foldl insertUnique
            (anchors.foldl insertUnique urls)).take required =
            (anchors.foldl insertUnique urls).take required :=
          take_foldl_insertUnique_of_ge _ _ _ hc
        refine ⟨?_, ?_, ?_, ?_⟩
        · simp [findArticlesSeeds, hd]
        · simp [findArticlesSeeds, hd, allAnchors_cons_some, List.foldl_append, htake]
        · simp [findArticlesSeeds, hd]
        · simp [findArticlesSeeds, hd]
      · have hlt : (anchors.foldl insertUnique urls).length < required := by omega
        have hd := dedupUpTo_of_lt required anchors urls hlt
        obtain ⟨ih1, ih2, ih3, ih4⟩ := ih (anchors.foldl insertUnique urls) hlt h
        refine ⟨?_, ?_, ?_, ?_⟩
        · simp [findArticlesSeeds, hd, ih1]
        · simp [findArticlesSeeds, hd, ih2, allAnchors_cons_some, List.foldl_append]
        · simp [findArticlesSeeds, hd]
          omega
        · simp [findArticlesSeeds, hd, ih4]

theorem allAnchors_eq_nil_of_discovered (seeds : List (Option (List String)))
    (h : discovered seeds = []) : allAnchors seeds = [] := by
  cases hm : allAnchors seeds with
  | nil => rfl
  | cons a t =>
    exfalso
    have h1 : (insertUnique [] a).length = 1 := by simp [insertUnique]
    have h2 := length_le_foldl_insertUnique t (insertUnique [] a)
    have h3 : 1 ≤ (discovered seeds).length := by
      unfold discovered
      rw [hm, List.foldl_cons]
      omega
    rw [h] at h3
    simp at h3

/-- C1 (Crawler shortfall padding): over seeds that together yield exactly
`k` distinct article links with `1 ≤ k < required`, `find_articles`
produces a sequence of length exactly `required` whose first `k` elements
are the distinct discovered URLs in discovery order and whose elements at
positions `k .. required - 1` all equal the last discovered URL; if zero
URLs were discovered the sequence stays empty. -/
theorem crawler_shortfall (required : Nat) (seeds : List (Option (List String))) :
    (discovered seeds = [] → find_articles required seeds = []) ∧
    (∀ k, k = (discovered seeds).length → 1 ≤ k → k < required →
      (find_articles required seeds).length = required ∧
      (find_articles required seeds).take k = discovered seeds ∧
      ∀ i, k ≤ i → i < required →
        (find_articles required seeds).getD i "" = (discovered seeds).getLastD "") := by
  constructor
  · intro h
    have hA := allAnchors_eq_nil_of_discovered seeds h
    have hloop := findArticlesSeeds_no_anchors required seeds [] hA
    unfold find_articles
    rw [hloop]
    simp
  · intro k hk h1 hkr
    have hlt : ((allAnchors seeds).foldl insertUnique []).length < required := by
      unfold discovered at hk; omega
    have hloop := findArticlesSeeds_of_lt required seeds [] hlt
    have hfst : (findArticlesSeeds required seeds []).1 = discovered seeds := by
      rw [hloop]
      rfl
    have hne : discovered seeds ≠ [] := by
      intro h0; rw [h0] at hk; simp at hk; omega
    have hres : find_articles required seeds =
        discovered seeds ++
          List.replicate (required - k) ((discovered seeds).getLastD "") := by
      unfold find_articles
      rw [hfst, if_pos ⟨hne, by omega⟩, hk]
    refine ⟨?_, ?_, ?_⟩
    · rw [hres]
      simp only [List.length_append, List.length_replicate]
      rw [← hk]
      omega
    · rw [hres, hk, List.take_left]
    · intro i hik hir
      have hlen : (discovered seeds).length ≤ i := by omega
      rw [hres, List.getD_eq_getElem?_getD, List.getElem?_append_right hlen,
        List.getElem?_replicate]
      have hin : i - (discovered seeds).length < required - k := by omega
      rw [if_pos hin]
      rfl

/-- C1 witness: two links discovered, quota three, so the result pads with
the second link. -/
theorem crawler_shortfall_witness :
    (find_articles 3 [some ["a", "b"]]).length = 3 ∧
    (find_articles 3 [some ["a", "b"]]).take 2 = discovered [some ["a", "b"]] ∧
    (find_articles 3 [some ["a", "b"]]).getD 2 "" =
      (discovered [some ["a", "b"]]).getLastD "" := by
  have h := (crawler_shortfall 3 [some ["a", "b"]]).2 2 (by decide) (by decide) (by decide)
  exact ⟨h.1, h.2.1, h.2.2 2 (by decide) (by decide)⟩

/-- C2 (Crawler early exit): over seeds that together yield at least
`required` distinct article links, `find_articles` returns exactly the
first `required` distinct URLs in order of first discovery (a sequence of
length `required` without duplicates), and if a prefix of the seed list
already yields `required` distinct links then the traversal is identical
to the traversal of that prefix alone and fetches no seed beyond it. -/
theorem crawler_early_exit (required : Nat) (seeds : List (Option (List String)))
    (hreq : 1 ≤ required) (h : required ≤ (discovered seeds).length) :
    find_articles required seeds = (discovered seeds).take required ∧
    (find_articles required seeds).length = required ∧
    (find_articles required seeds).Nodup ∧
    ∀ s₁ s₂, seeds = s₁ ++ s₂ → required ≤ (discovered s₁).length →
      findArticlesSeeds required seeds [] = findArticlesSeeds required s₁ [] ∧
      fetchedSeeds required seeds = fetchedSeeds required s₁ ∧
      fetchedSeeds required s₁ ≤ s₁.length := by
  have hu : ([] : List String).length < required := by simpa using hreq
  have hdef : discovered seeds = (allAnchors seeds).foldl insertUnique [] := rfl
  obtain ⟨-, hfst, -, -⟩ :=
    findArticlesSeeds_append_of_ge required seeds [] [] hu (by rw [← hdef]; exact h)
  have hres : find_articles required seeds = (discovered seeds).take required := by
    unfold find_articles
    rw [hfst, ← hdef]
    have hlen : ((discovered seeds).take required).length = required := by
      rw [List.length_take]
      omega
    have hnot : ¬(((discovered seeds).take required ≠ []) ∧
        ((discovered seeds).take required).length < required) := by
      intro hcon
      rw [hlen] at hcon
      exact absurd hcon.2 (lt_irrefl _)
    rw [if_neg hnot]
  refine ⟨hres, ?_, ?_, ?_⟩
  · rw [hres, List.length_take]
    omega
  · rw [hres]
    exact List.Nodup.sublist (List.take_sublist _ _)
      (nodup_foldl_insertUnique _ _ List.nodup_nil)
  · intro s₁ s₂ hsplit hs₁
    subst hsplit
    have hdef₁ : discovered s₁ = (allAnchors s₁).foldl insertUnique [] := rfl
    obtain ⟨he, -, hcount, -⟩ :=
      findArticlesSeeds_append_of_ge required s₁ s₂ [] hu (by rw [← hdef₁]; exact hs₁)
    exact ⟨he, by unfold fetchedSeeds; rw [he], hcount⟩

/-- C2 witness: quota two reached inside the first seed; the second seed
is never fetched. -/
theorem crawler_early_exit_witness :
    find_articles 2 [some ["a", "b", "c"], some ["d"]] = ["a", "b"] ∧
    fetchedSeeds 2 [some ["a", "b", "c"], some ["d"]] = 1 := by
  have h := crawler_early_exit 2 [some ["a", "b", "c"], some ["d"]] (by decide) (by decide)
  have h4 := h.2.2.2 [some ["a", "b", "c"]] [some ["d"]] rfl (by decide)
  constructor
  · rw [h.1]; decide
  · rw [h4.2.1]; decide

/-- C4 counterexample: a call whose underlying fetch raises a transport
error propagates the exception before the sleep and so returns without
the delay, refuting the claim that every call incurs it. -/
theorem make_request_throttle_cex : (make_request FetchOutcome.transportError).2 ≠ 1 := by
  decide

/-- C4 (amended): the fixed one-time-unit delay is incurred after every
fetch that returns a response, whatever its status; a call whose fetch
raises a transport failure or a value error exits before the sleep and
incurs no delay. -/
theorem make_request_throttle_amended :
    (∀ status text, (make_request (FetchOutcome.response status text)).2 = 1) ∧
    (make_request FetchOutcome.transportError).2 = 0 ∧
    (make_request FetchOutcome.valueError).2 = 0 :=
  ⟨fun _ _ => rfl, rfl, rfl⟩

/-! ### Author extraction lemmas -/

theorem authorLoop_spec (tags : List PBlock) (author : List String) (found : Bool) :
    authorLoop tags author found =
      (author ++ (tags.filterMap fun b => b.strongText.map pyStrip),
       found || tags.any fun b => b.strongText.isSome) := by
  induction tags generalizing author found with
  | nil => simp [authorLoop]
  | cons b rest ih =>
    cases hs : b.strongText with
    | none => simp [authorLoop, hs, ih]
    | some s => simp [authorLoop, hs, ih, List.append_assoc]

theorem filterMap_strong_filter (blocks : List PBlock) :
    ((blocks.filter fun b => b.align == some "right").filterMap
        fun b => b.strongText.map pyStrip) =
      (signatureBlocks blocks).filterMap fun b => b.strongText.map pyStrip := by
  induction blocks with
  | nil => rfl
  | cons b rest ih =>
    by_cases ha : b.align == some "right" <;> cases hs : b.strongText <;>
      simp [signatureBlocks, List.filter_cons, ha, hs, List.filterMap_cons, ih]

theorem any_strong_filter (blocks : List PBlock) :
    ((blocks.filter fun b => b.align == some "right").any fun b => b.strongText.isSome) =
      !(signatureBlocks blocks).isEmpty := by
  induction blocks with
  | nil => rfl
  | cons b rest ih =>
    by_cases ha : b.align == some "right" <;> cases hs : b.strongText <;>
      simp [signatureBlocks, List.filter_cons, ha, hs] <;>
      simpa [signatureBlocks] using ih

/-- C8 (ArticleExtractor author fallback): every block matching the
signature pattern (right-aligned paragraph containing a bolded run)
contributes its stripped bolded text, all matches contribute in order, a
page with no matching block gets exactly the sentinel, and the author
sequence is never empty. -/
theorem article_author_fallback (blocks : List PBlock) :
    (signatureBlocks blocks = [] → fill_author blocks = ["NOT FOUND"]) ∧
    (signatureBlocks blocks ≠ [] →
      fill_author blocks =
        (signatureBlocks blocks).filterMap fun b => b.strongText.map pyStrip) ∧
    fill_author blocks ≠ [] := by
  have hfill : fill_author blocks =
      (if !(signatureBlocks blocks).isEmpty then
        (signatureBlocks blocks).filterMap fun b => b.strongText.map pyStrip
      else ((signatureBlocks blocks).filterMap fun b => b.strongText.map pyStrip)
        ++ ["NOT FOUND"]) := by
    simp only [fill_author, authorLoop_spec, filterMap_strong_filter, any_strong_filter,
      List.nil_append, Bool.false_or]
  refine ⟨?_, ?_, ?_⟩
  · intro h
    rw [hfill, h]
    simp
  · intro h
    rw [hfill, if_pos (by simpa using h)]
  · rw [hfill]
    cases hsig : signatureBlocks blocks with
    | nil => simp
    | cons b rest =>
      have hb : b ∈ signatureBlocks blocks := by rw [hsig]; exact List.mem_cons_self b rest
      have hp := (List.mem_filter.mp hb).2
      have hsome : b.strongText.isSome := by
        simp only [Bool.and_eq_true] at hp
        exact hp.2
      obtain ⟨s, hs⟩ := Option.isSome_iff_exists.mp hsome
      simp [List.filterMap_cons, hs]

/-- C8 witness: a right-aligned paragraph without a bolded run yields the
sentinel; two signature blocks both contribute their stripped texts. -/
theorem article_author_fallback_witness :
    fill_author [⟨some "right", Option.none⟩] = ["NOT FOUND"] ∧
    fill_author [⟨some "right", some " Ivanov "⟩, ⟨some "left", some "X"⟩,
      ⟨some "right", some "Petrov"⟩] = ["Ivanov", "Petrov"] := by
  constructor
  · exact (article_author_fallback [⟨some "right", Option.none⟩]).1 (by decide)
  · have h := (article_author_fallback [⟨some "right", some " Ivanov "⟩,
      ⟨some "left", some "X"⟩, ⟨some "right", some "Petrov"⟩]).2.1 (by decide)
    rw [h]
    decide

/-! ### ConfigValidator lemmas -/

/-- C7 counterexample: a configuration whose seed urls are invalid and
whose quota is non-positive fails with the seed-url error, not the
article-count error the claim promises for every configuration input. -/
theorem config_quota_cex :
    validate_config_content ⟨150, 0, 60⟩
        ⟨PyVal.int 0, PyVal.int 0, PyVal.dict [], PyVal.str "utf-8", PyVal.int 30,
         PyVal.bool true, PyVal.bool false⟩ = .error ConfigError.incorrectSeedURL ∧
      ConfigError.incorrectSeedURL ≠ ConfigError.incorrectNumberOfArticles := by
  exact ⟨rfl, by decide⟩

/-- C7 (amended): provided the seed-url check passes (validation
short-circuits on the earlier seed-url rule otherwise), validation fails
with the article-count error exactly when the quota is not an integer or
not positive, and with the out-of-range error exactly when the quota is a
positive integer exceeding the upper limit; the two kinds are never
swapped. -/
theorem config_quota_amended (L : Limits) (dto : PyConfigDTO)
    (hseed : seedUrlsBad dto.seed_urls = false) :
    (validate_config_content L dto = .error ConfigError.incorrectNumberOfArticles ↔
      (isInstInt dto.total_articles = false ∨ pyIntValue dto.total_articles ≤ 0)) ∧
    (validate_config_content L dto = .error ConfigError.numberOfArticlesOutOfRange ↔
      (isInstInt dto.total_articles = true ∧ 0 < pyIntValue dto.total_articles ∧
        L.numArticlesUpperLimit < pyIntValue dto.total_articles)) := by
  unfold validate_config_content
  rw [if_neg (by simp [hseed])]
  by_cases h1 : isInstInt dto.total_articles = false ∨ pyIntValue dto.total_articles ≤ 0
  · rw [if_pos h1]
    refine ⟨⟨fun _ => h1, fun _ => rfl⟩, ⟨fun he => ?_, fun hc => ?_⟩⟩
    · exact absurd he (by simp)
    · rcases h1 with h1 | h1
      · rw [hc.1] at h1; exact absurd h1 (by simp)
      · exact absurd hc.2.1 (by omega)
  · rw [if_neg h1]
    have hInt : isInstInt dto.total_articles = true := by
      cases hb : isInstInt dto.total_articles
      · exact absurd (Or.inl hb) h1
      · rfl
    have hPos : 0 < pyIntValue dto.total_articles := by
      by_contra hle
      exact h1 (Or.inr (by omega))
    by_cases h2 : L.numArticlesUpperLimit < pyIntValue dto.total_articles
    · rw [if_pos h2]
      refine ⟨⟨fun he => ?_, fun hc => ?_⟩, ⟨fun _ => ⟨hInt, hPos, h2⟩, fun _ => rfl⟩⟩
      · exact absurd he (by simp)
      · rcases hc with hc | hc
        · rw [hInt] at hc; exact absurd hc (by simp)
        · exact absurd hc (by omega)
    · rw [if_neg h2]
      refine ⟨⟨fun he => ?_, fun hc => ?_⟩, ⟨fun he => ?_, fun hc => ?_⟩⟩
      · exfalso; revert he; split_ifs <;> simp
      · exact absurd hc h1
      · exfalso; revert he; split_ifs <;> simp
      · exact absurd hc.2.2 h2

/-- C7 witness: with valid seeds, a string quota raises the article-count
error and an oversized integer quota raises the out-of-range error. -/
theorem config_quota_amended_witness :
    validate_config_content ⟨150, 0, 60⟩
        ⟨PyVal.list [PyVal.str "https://example.test/x"], PyVal.str "ten", PyVal.dict [],
         PyVal.str "utf-8", PyVal.int 30, PyVal.bool true, PyVal.bool false⟩ =
      .error ConfigError.incorrectNumberOfArticles ∧
    validate_config_content ⟨150, 0, 60⟩
        ⟨PyVal.list [PyVal.str "https://example.test/x"], PyVal.int 200, PyVal.dict [],
         PyVal.str "utf-8", PyVal.int 30, PyVal.bool true, PyVal.bool false⟩ =
      .error ConfigError.numberOfArticlesOutOfRange := by
  constructor
  · exact (config_quota_amended ⟨150, 0, 60⟩
      ⟨PyVal.list [PyVal.str "https://example.test/x"], PyVal.str "ten", PyVal.dict [],
       PyVal.str "utf-8", PyVal.int 30, PyVal.bool true, PyVal.bool false⟩ rfl).1.mpr
      (Or.inl rfl)
  · exact (config_quota_amended ⟨150, 0, 60⟩
      ⟨PyVal.list [PyVal.str "https://example.test/x"], PyVal.int 200, PyVal.dict [],
       PyVal.str "utf-8", PyVal.int 30, PyVal.bool true, PyVal.bool false⟩ rfl).2.mpr
      ⟨rfl, by decide, by decide⟩

/-- C10 (boolean quota accepted): when `total_articles` is the boolean
`True`, validation never fails with the article-count error, because
`True` is an instance of `int` with value 1; and a successfully
constructed Config reports a quota numerically equal to 1 through
`get_num_articles`. -/
theorem config_bool_quota (L : Limits) (dto : PyConfigDTO)
    (h : dto.total_articles = PyVal.bool true) :
    validate_config_content L dto ≠ .error ConfigError.incorrectNumberOfArticles ∧
    (∀ cfg, config_init L dto = .ok cfg → pyIntValue (get_num_articles cfg) = 1) := by
  constructor
  · unfold validate_config_content
    rw [h]
    by_cases hs : seedUrlsBad dto.seed_urls
    · rw [if_pos hs]; simp
    · rw [if_neg hs, if_neg (by decide)]
      split_ifs <;> simp
  · intro cfg hcfg
    unfold config_init at hcfg
    cases hv : validate_config_content L dto with
    | error e =>
      rw [hv] at hcfg
      exact absurd hcfg (by simp)
    | ok u =>
      rw [hv] at hcfg
      simp only [Except.ok.injEq] at hcfg
      subst hcfg
      simp [get_num_articles, h, pyIntValue]

/-- C10 witness: a fully valid configuration whose quota field is `True`
constructs and reports quota 1. -/
theorem config_bool_quota_witness :
    pyIntValue (get_num_articles
      ⟨PyVal.list [PyVal.str "https://example.test/x"], PyVal.bool true, PyVal.dict [],
       PyVal.str "utf-8", PyVal.int 30, PyVal.bool true, PyVal.bool false⟩) = 1 := by
  exact (config_bool_quota ⟨150, 0, 60⟩
      ⟨PyVal.list [PyVal.str "https://example.test/x"], PyVal.bool true, PyVal.dict [],
       PyVal.str "utf-8", PyVal.int 30, PyVal.bool true, PyVal.bool false⟩ rfl).2
    ⟨PyVal.list [PyVal.str "https://example.test/x"], PyVal.bool true, PyVal.dict [],
     PyVal.str "utf-8", PyVal.int 30, PyVal.bool true, PyVal.bool false⟩ rfl

/-! ### Decimal numeral lemmas -/

theorem parse_natDigitsCore (fuel n : Nat) (h : n ≤ fuel) :
    (natDigitsCore fuel n).foldl (fun a d => 10 * a + d) 0 = n := by
  induction fuel generalizing n with
  | zero =>
    have h0 : n = 0 := by omega
    subst h0
    rfl
  | succ fuel ih =>
    by_cases h0 : n = 0
    · subst h0; simp [natDigitsCore]
    · have hdiv : n / 10 ≤ fuel := by
        have := Nat.div_lt_self (Nat.pos_of_ne_zero h0) (show 1 < 10 by omega)
        omega
      simp only [natDigitsCore, if_neg h0]
      rw [List.foldl_append, ih _ hdiv]
      simp only [List.foldl_cons, List.foldl_nil]
      omega

theorem natDigitsCore_lt (fuel n : Nat) : ∀ d ∈ natDigitsCore fuel n, d < 10 := by
  induction fuel generalizing n with
  | zero => simp [natDigitsCore]
  | succ fuel ih =>
    by_cases h0 : n = 0
    · subst h0; simp [natDigitsCore]
    · intro d hd
      simp only [natDigitsCore, if_neg h0, List.mem_append] at hd
      rcases hd with hd | hd
      · exact ih _ _ hd
      · simp only [List.mem_singleton] at hd
        subst hd
        exact Nat.mod_lt _ (by omega)

theorem natDigitsCore_ne_nil (fuel n : Nat) (h0 : n ≠ 0) (h : n ≤ fuel) :
    natDigitsCore fuel n ≠ [] := by
  cases fuel with
  | zero => omega
  | succ fuel =>
    simp only [natDigitsCore, if_neg h0]
    simp

theorem digitChar_isDigit (d : Nat) (h : d < 10) : (Nat.digitChar d).isDigit = true := by
  interval_cases d <;> decide

theorem digitChar_toNat (d : Nat) (h : d < 10) : (Nat.digitChar d).toNat - 48 = d := by
  interval_cases d <;> decide

theorem digitChar_ne_underscore (d : Nat) (h : d < 10) :
    (decide (Nat.digitChar d ≠ '_')) = true := by
  interval_cases d <;> decide

theorem pyIsDigit_natChars (n : Nat) (h : 1 ≤ n) : pyIsDigit (natChars n) = true := by
  unfold pyIsDigit natChars
  have hne := natDigitsCore_ne_nil (n + 1) n (by omega) (by omega)
  have hlt := natDigitsCore_lt (n + 1) n
  simp only [Bool.and_eq_true, Bool.not_eq_true', List.all_eq_true]
  constructor
  · cases hc : natDigitsCore (n + 1) n with
    | nil => exact absurd hc hne
    | cons d t => simp [hc]
  · intro c hc
    obtain ⟨d, hd, hcd⟩ := List.mem_map.mp hc
    subst hcd
    exact digitChar_isDigit d (hlt d hd)

theorem foldl_parse_map_digitChar (l : List Nat) (hl : ∀ d ∈ l, d < 10) (a : Nat) :
    (l.map Nat.digitChar).foldl (fun acc c => 10 * acc + (c.toNat - 48)) a =
      l.foldl (fun acc d => 10 * acc + d) a := by
  induction l generalizing a with
  | nil => rfl
  | cons d t ih =>
    simp only [List.map_cons, List.foldl_cons]
    rw [digitChar_toNat d (hl d (List.mem_cons_self d t)),
      ih (fun x hx => hl x (List.mem_cons_of_mem d hx))]

theorem parseDigitsChars_natChars (n : Nat) : parseDigitsChars (natChars n) = n := by
  unfold parseDigitsChars natChars
  rw [foldl_parse_map_digitChar _ (natDigitsCore_lt (n + 1) n)]
  exact parse_natDigitsCore (n + 1) n (by omega)

theorem takeWhile_append_stop (l₁ : List Char) (c : Char) (l₂ : List Char) (p : Char → Bool)
    (h₁ : ∀ x ∈ l₁, p x = true) (hc : p c = false) :
    (l₁ ++ c :: l₂).takeWhile p = l₁ := by
  induction l₁ with
  | nil => simp [List.takeWhile_cons, hc]
  | cons x t ih =>
    simp only [List.cons_append, List.takeWhile_cons, h₁ x (List.mem_cons_self x t), if_true]
    rw [ih fun y hy => h₁ y (List.mem_cons_of_mem x hy)]

theorem stemHead_rawStem (f : RawFile) (i : Nat) (h : f.stem = rawStem i) :
    stemHead f = natChars i := by
  unfold stemHead
  rw [h]
  unfold rawStem
  apply takeWhile_append_stop
  · intro x hx
    obtain ⟨d, hd, hcd⟩ := List.mem_map.mp hx
    subst hcd
    exact digitChar_ne_underscore d (natDigitsCore_lt _ _ d hd)
  · decide

/-! ### CorpusManager lemmas -/

theorem insertionSort_eq_range' (l : List Nat) (N : Nat) (hperm : l.Perm (List.range' 1 N)) :
    List.insertionSort (fun a b => a ≤ b) l = List.range' 1 N := by
  apply List.eq_of_perm_of_sorted (r := fun a b : Nat => a ≤ b)
  · exact (List.perm_insertionSort _ l).trans hperm
  · exact List.sorted_insertionSort _ l
  · exact (List.pairwise_lt_range' 1 N).imp fun h => Nat.le_of_lt h

/-- C5 counterexample: a directory of two discovered files `1_raw.txt` and
`abc_raw.txt`, both non-empty, passes `_validate_dataset` even though the
collected numeric ids are `[1]` and not `{1, 2}` for the two discovered
files; the subsequent scan then fails with the int-conversion error
rather than `InconsistentDataset`. -/
theorem corpus_manager_validation_cex :
    validate_dataset (.directory
        [⟨"1_raw".toList, 5, "x"⟩, ⟨"abc_raw".toList, 5, "y"⟩]) = .ok () ∧
    digitIds [⟨"1_raw".toList, 5, "x"⟩, ⟨"abc_raw".toList, 5, "y"⟩] = [1] ∧
    ([⟨"1_raw".toList, 5, "x"⟩, ⟨"abc_raw".toList, 5, "y"⟩] : List RawFile).length = 2 ∧
    corpus_manager_init (.directory
        [⟨"1_raw".toList, 5, "x"⟩, ⟨"abc_raw".toList, 5, "y"⟩]) =
      .error LoadError.valueError ∧
    LoadError.valueError ≠ LoadError.inconsistentDataset := by
  exact ⟨rfl, rfl, rfl, rfl, by decide⟩

/-- C5 (amended): loading succeeds exactly when the path is a non-empty
directory whose digit-named record files carry ids `{1, ..., M}` for `M`
the number of digit-named files and no discovered file is zero-length;
a violation of that id or emptiness condition on a non-empty directory
raises `InconsistentDataset`; validation errors abort loading before any
record is scanned, and a missing or non-directory path raises the
corresponding error. -/
theorem corpus_manager_validation_amended (files : List RawFile) :
    (validate_dataset (.directory files) = .ok () ↔
      files ≠ [] ∧
      List.insertionSort (fun a b => a ≤ b) (digitIds files)
        = List.range' 1 (digitIds files).length ∧
      ∀ f ∈ files, f.size ≠ 0) ∧
    (files ≠ [] →
      (List.insertionSort (fun a b => a ≤ b) (digitIds files)
          ≠ List.range' 1 (digitIds files).length ∨ ∃ f ∈ files, f.size = 0) →
      validate_dataset (.directory files) = .error LoadError.inconsistentDataset) ∧
    (∀ e, validate_dataset (.directory files) = .error e →
      corpus_manager_init (.directory files) = .error e) ∧
    validate_dataset PathState.missing = .error LoadError.fileNotFound ∧
    validate_dataset PathState.notDirectory = .error LoadError.notADirectory := by
  have hmain : ∀ hne : files ≠ [],
      validate_dataset (.directory files) =
        (if List.insertionSort (fun a b => a ≤ b) (digitIds files)
              ≠ List.range' 1 (digitIds files).length
            ∨ files.any (fun f => f.size == 0) = true
         then .error LoadError.inconsistentDataset else .ok ()) := by
    intro hne
    have hstep : validate_dataset (.directory files) =
        (if files.isEmpty = true then .error LoadError.emptyDirectory
         else if List.insertionSort (fun a b => a ≤ b) (digitIds files)
               ≠ List.range' 1 (digitIds files).length
             ∨ files.any (fun f => f.size == 0) = true
           then .error LoadError.inconsistentDataset else .ok ()) := rfl
    rw [hstep, if_neg fun hc => hne (List.isEmpty_iff.mp hc)]
  refine ⟨?_, ?_, ?_, rfl, rfl⟩
  · by_cases hne : files = []
    · subst hne
      constructor
      · intro h
        rw [show validate_dataset (.directory ([] : List RawFile)) =
            .error LoadError.emptyDirectory from rfl] at h
        exact Except.noConfusion h
      · intro h
        exact absurd rfl h.1
    · rw [hmain hne]
      by_cases hbad : List.insertionSort (fun a b => a ≤ b) (digitIds files)
          ≠ List.range' 1 (digitIds files).length
          ∨ files.any (fun f => f.size == 0) = true
      · rw [if_pos hbad]
        constructor
        · intro h
          exact absurd h (by simp)
        · rintro ⟨-, hsorted, hsz⟩
          rcases hbad with hbad | hbad
          · exact absurd hsorted hbad
          · obtain ⟨f, hf, hf0⟩ := List.any_eq_true.mp hbad
            exact absurd (by simpa using hf0) (hsz f hf)
      · rw [if_neg hbad]
        push_neg at hbad
        refine ⟨fun _ => ⟨hne, hbad.1, fun f hf hf0 => ?_⟩, fun _ => rfl⟩
        have : files.any (fun f => f.size == 0) = true :=
          List.any_eq_true.mpr ⟨f, hf, by simp [hf0]⟩
        exact absurd this (by simpa using hbad.2)
  · intro hne hviol
    rw [hmain hne, if_pos ?cond]
    case cond =>
      rcases hviol with hviol | hviol
      · exact Or.inl hviol
      · obtain ⟨f, hf, hf0⟩ := hviol
        exact Or.inr (List.any_eq_true.mpr ⟨f, hf, by simp [hf0]⟩)
  · intro e he
    unfold corpus_manager_init
    rw [he]

/-- C5 witness: a singleton dataset with id 1 validates; a singleton
dataset whose only id is 2 is inconsistent. -/
theorem corpus_manager_validation_amended_witness :
    validate_dataset (.directory [⟨"1_raw".toList, 3, "x"⟩]) = .ok () ∧
    validate_dataset (.directory [⟨"2_raw".toList, 3, "x"⟩]) =
      .error LoadError.inconsistentDataset := by
  constructor
  · exact (corpus_manager_validation_amended [⟨"1_raw".toList, 3, "x"⟩]).1.mpr
      ⟨List.cons_ne_nil _ _, by decide, by decide⟩
  · exact (corpus_manager_validation_amended [⟨"2_raw".toList, 3, "x"⟩]).2.1
      (List.cons_ne_nil _ _) (Or.inl (by decide))

theorem isDigit_not_isWhitespace (c : Char) (h : c.isDigit = true) :
    c.isWhitespace = false := by
  have h1 : c ≠ ' ' := fun e => by rw [e] at h; exact absurd h (by decide)
  have h2 : c ≠ '\t' := fun e => by rw [e] at h; exact absurd h (by decide)
  have h3 : c ≠ '\r' := fun e => by rw [e] at h; exact absurd h (by decide)
  have h4 : c ≠ '\n' := fun e => by rw [e] at h; exact absurd h (by decide)
  simp [Char.isWhitespace, h1, h2, h3, h4]

theorem dropWhile_ws_of_digits (cs : List Char) (h : cs.all Char.isDigit = true) :
    cs.dropWhile Char.isWhitespace = cs := by
  cases cs with
  | nil => rfl
  | cons c t =>
    have hc : c.isDigit = true := by
      simp only [List.all_cons, Bool.and_eq_true] at h
      exact h.1
    rw [List.dropWhile_cons, if_neg (by simp [isDigit_not_isWhitespace c hc])]

theorem pyInt_of_isDigit (cs : List Char) (h : pyIsDigit cs = true) :
    pyInt cs = some (parseDigitsChars cs) := by
  obtain ⟨hne, hall⟩ : cs.isEmpty = false ∧ cs.all Char.isDigit = true := by
    unfold pyIsDigit at h
    simpa using h
  have hrev : cs.reverse.all Char.isDigit = true := by simpa using hall
  have hws : pyStripWs cs = cs := by
    unfold pyStripWs
    rw [dropWhile_ws_of_digits cs hall, dropWhile_ws_of_digits cs.reverse hrev,
      List.reverse_reverse]
  have hsign : pyStripSign cs = cs := by
    unfold pyStripSign
    rw [if_neg ?head]
    case head =>
      cases cs with
      | nil => simp at hne
      | cons c t =>
        simp only [List.head?_cons, Option.some.injEq]
        intro he
        subst he
        simp only [List.all_cons, Bool.and_eq_true] at hall
        exact absurd hall.1 (by decide)
  unfold pyInt
  rw [hws, hsign, if_pos ⟨by simp [hne], hall⟩]


theorem scanLoop_all_digits (files : List RawFile) (store : List (Nat × String))
    (h : ∀ f ∈ files, pyIsDigit (stemHead f) = true) :
    scanLoop files store = .ok (files.foldl
      (fun st f => dictInsert st (parseDigitsChars (stemHead f)) f.text) store) := by
  induction files generalizing store with
  | nil => rfl
  | cons f rest ih =>
    have hpy : pyInt (stemHead f) = some (parseDigitsChars (stemHead f)) :=
      pyInt_of_isDigit _ (h f (List.mem_cons_self f rest))
    simp only [scanLoop, hpy, List.foldl_cons]
    exact ih _ fun g hg => h g (List.mem_cons_of_mem f hg)

theorem foldl_dictInsert_disjoint (files : List RawFile) (store : List (Nat × String))
    (hnd : (files.map fun f => parseDigitsChars (stemHead f)).Nodup)
    (hdisj : ∀ f ∈ files, ∀ p ∈ store, p.1 ≠ parseDigitsChars (stemHead f)) :
    files.foldl (fun st f => dictInsert st (parseDigitsChars (stemHead f)) f.text) store =
      store ++ files.map fun f => (parseDigitsChars (stemHead f), f.text) := by
  induction files generalizing store with
  | nil => simp
  | cons f rest ih =>
    have hnotin : ¬ (store.any (fun p => p.1 == parseDigitsChars (stemHead f)) = true) := by
      intro hc
      obtain ⟨p, hp, hpe⟩ := List.any_eq_true.mp hc
      exact hdisj f (List.mem_cons_self f rest) p hp (by simpa using hpe)
    have hd : dictInsert store (parseDigitsChars (stemHead f)) f.text =
        store ++ [(parseDigitsChars (stemHead f), f.text)] := by
      unfold dictInsert
      rw [if_neg hnotin]
    obtain ⟨hkey, hndrest⟩ :
        (∀ x ∈ rest, ¬parseDigitsChars (stemHead x) = parseDigitsChars (stemHead f)) ∧
          (rest.map fun f => parseDigitsChars (stemHead f)).Nodup := by simpa using hnd
    simp only [List.foldl_cons, List.map_cons, hd]
    rw [ih (store ++ [(parseDigitsChars (stemHead f), f.text)]) hndrest ?disj]
    · simp
    case disj =>
      intro g hg p hp
      rcases List.mem_append.mp hp with hp | hp
      · exact hdisj g (List.mem_cons_of_mem f hg) p hp
      · simp only [List.mem_singleton] at hp
        subst hp
        show parseDigitsChars (stemHead f) ≠ parseDigitsChars (stemHead g)
        intro hc
        exact hkey g hg hc.symm

/-- C6 (CorpusManager round-trip): persisting records with ids `1..N` (no
gaps, all files non-empty, in any directory enumeration order) and then
constructing a CorpusManager yields a storage of size `N` whose key set
is exactly `{1, ..., N}`; a gap in the ids (1, 2, 4) or a zero-length
file makes loading fail with `InconsistentDataset`. -/
theorem corpus_manager_round_trip :
    (∀ N : Nat, ∀ files : List RawFile, 1 ≤ N →
      (files.map RawFile.stem).Perm ((List.range' 1 N).map rawStem) →
      (∀ f ∈ files, 0 < f.size) →
      ∃ storage, corpus_manager_init (.directory files) = .ok storage ∧
        storage.length = N ∧ (storage.map Prod.fst).Perm (List.range' 1 N)) ∧
    corpus_manager_init (.directory
        [⟨rawStem 1, 3, "a"⟩, ⟨rawStem 2, 3, "b"⟩, ⟨rawStem 4, 3, "c"⟩]) =
      .error LoadError.inconsistentDataset ∧
    corpus_manager_init (.directory
        [⟨rawStem 1, 3, "a"⟩, ⟨rawStem 2, 0, "b"⟩]) =
      .error LoadError.inconsistentDataset := by
  refine ⟨?_, rfl, rfl⟩
  intro N files hN hperm hsz
  have hstems : ∀ f ∈ files, ∃ i, i ∈ List.range' 1 N ∧ f.stem = rawStem i := by
    intro f hf
    have hm : f.stem ∈ (List.range' 1 N).map rawStem :=
      hperm.mem_iff.mp (List.mem_map_of_mem RawFile.stem hf)
    obtain ⟨i, hi, hie⟩ := List.mem_map.mp hm
    exact ⟨i, hi, hie.symm⟩
  have hdig : ∀ f ∈ files, pyIsDigit (stemHead f) = true := by
    intro f hf
    obtain ⟨i, hi, hstem⟩ := hstems f hf
    rw [stemHead_rawStem f i hstem]
    have h1 : 1 ≤ i := by
      have := List.mem_range'_1.mp hi
      omega
    exact pyIsDigit_natChars i h1
  have hmapkey : (files.map fun f => parseDigitsChars (stemHead f)).Perm
      (List.range' 1 N) := by
    have h1 : files.map (fun f => parseDigitsChars (stemHead f)) =
        (files.map RawFile.stem).map
          (fun cs => parseDigitsChars (cs.takeWhile fun c => c ≠ '_')) := by
      rw [List.map_map]
      rfl
    have h2 : ((List.range' 1 N).map rawStem).map
        (fun cs => parseDigitsChars (cs.takeWhile fun c => c ≠ '_')) =
        List.range' 1 N := by
      rw [List.map_map]
      have h3 : ∀ i ∈ List.range' 1 N,
          ((fun cs => parseDigitsChars (cs.takeWhile fun c => c ≠ '_')) ∘ rawStem) i =
            id i := by
        intro i hi
        have hsh : stemHead ⟨rawStem i, 0, ""⟩ = natChars i := stemHead_rawStem _ i rfl
        unfold stemHead at hsh
        simp only [Function.comp_apply, id_eq]
        rw [show (rawStem i).takeWhile (fun c => decide ¬(c = '_')) = natChars i from hsh]
        exact parseDigitsChars_natChars i
      rw [List.map_congr_left h3, List.map_id]
    rw [h1, ← h2]
    exact hperm.map _
  have hids : digitIds files = files.map fun f => parseDigitsChars (stemHead f) := by
    unfold digitIds
    rw [List.filter_eq_self.mpr hdig]
  have hlen : files.length = N := by
    have := hperm.length_eq
    simpa using this
  have hne : files ≠ [] := by
    intro hc
    rw [hc] at hlen
    simp at hlen
    omega
  have hsort : List.insertionSort (fun a b => a ≤ b) (digitIds files)
      = List.range' 1 (digitIds files).length := by
    rw [hids]
    have hlen2 : (files.map fun f => parseDigitsChars (stemHead f)).length = N := by
      simp [hlen]
    rw [hlen2]
    exact insertionSort_eq_range' _ N hmapkey
  have hanysz : ¬ (files.any (fun f => f.size == 0) = true) := by
    intro hc
    obtain ⟨f, hf, h0⟩ := List.any_eq_true.mp hc
    have := hsz f hf
    simp only [beq_iff_eq] at h0
    omega
  have hval : validate_dataset (.directory files) = .ok () := by
    have hstep : validate_dataset (.directory files) =
        (if files.isEmpty = true then .error LoadError.emptyDirectory
         else if List.insertionSort (fun a b => a ≤ b) (digitIds files)
               ≠ List.range' 1 (digitIds files).length
             ∨ files.any (fun f => f.size == 0) = true
           then .error LoadError.inconsistentDataset else .ok ()) := rfl
    rw [hstep, if_neg fun hc => hne (List.isEmpty_iff.mp hc), if_neg ?cond]
    case cond =>
      rintro (hbad | hbad)
      · exact hbad hsort
      · exact hanysz hbad
  have hnd : (files.map fun f => parseDigitsChars (stemHead f)).Nodup :=
    hmapkey.symm.nodup (List.nodup_range' 1 N)
  have hfold := foldl_dictInsert_disjoint files [] hnd (by intro f hf p hp; simp at hp)
  refine ⟨files.map (fun f => (parseDigitsChars (stemHead f), f.text)), ?_, ?_, ?_⟩
  · unfold corpus_manager_init
    rw [hval]
    simp only
    rw [scanLoop_all_digits files [] hdig, hfold]
    simp
  · simp [hlen]
  · have hcomp : (files.map fun f => (parseDigitsChars (stemHead f), f.text)).map Prod.fst
        = files.map fun f => parseDigitsChars (stemHead f) := by
      rw [List.map_map]
      rfl
    rw [hcomp]
    exact hmapkey

/-- C6 witness: two records persisted with ids 1 and 2, enumerated out of
order, load into a storage of size 2 keyed by exactly these ids. -/
theorem corpus_manager_round_trip_witness :
    corpus_manager_init (.directory [⟨rawStem 2, 4, "B"⟩, ⟨rawStem 1, 7, "A"⟩]) =
      .ok [(2, "B"), (1, "A")] ∧
    (([(2, "B"), (1, "A")] : List (Nat × String)).map Prod.fst).Perm (List.range' 1 2) := by
  obtain ⟨storage, h1, h2, h3⟩ := corpus_manager_round_trip.1 2
    [⟨rawStem 2, 4, "B"⟩, ⟨rawStem 1, 7, "A"⟩] (by omega) (by decide)
    (by decide)
  have hs : storage = [(2, "B"), (1, "A")] := by
    have hcomp : corpus_manager_init (.directory [⟨rawStem 2, 4, "B"⟩, ⟨rawStem 1, 7, "A"⟩]) =
        .ok [(2, "B"), (1, "A")] := rfl
    have := h1.symm.trans hcomp
    simpa using this
  subst hs
  exact ⟨h1, h3⟩

/-! ### AnnotationPipeline lemmas -/

/-- C3 counterexample: a valid two-article dataset whose directory
enumeration lists `2_raw.txt` before `1_raw.txt` loads into storage in
that order, so the run gathers the texts in enumeration order `["B", "A"]`
rather than in ascending id order `["A", "B"]`. -/
theorem pipeline_alignment_cex :
    corpus_manager_init (.directory [⟨rawStem 2, 1, "B"⟩, ⟨rawStem 1, 1, "A"⟩]) =
      .ok [(2, "B"), (1, "A")] ∧
    (pipelineRun [(2, "B"), (1, "A")] (some fun ts => ts)).texts = ["B", "A"] ∧
    ["B", "A"] ≠ ["A", "B"] := by
  exact ⟨rfl, rfl, by decide⟩

/-- C3 (amended): for every storage enumeration order, the run gathers
the texts in that order (ascending id order exactly when the enumeration
is sorted), and attachment is keyed by id, not by position: the analyzer
result at position `k` is attached to the article whose id is `k + 1`,
wherever that article sits in the enumeration; when the analyzer returns
fewer results, every article whose id exceeds the result count stays
un-annotated; and the attachment is total over the storage, with no
out-of-range access. -/
theorem pipeline_alignment_amended (storage : List (Nat × String))
    (f : List String → List String) :
    (pipelineRun storage (some f)).texts = storage.map Prod.snd ∧
    (pipelineRun storage (some f)).attached.length = storage.length ∧
    (∀ k j, k < (f (storage.map Prod.snd)).length → (hj : j < storage.length) →
      (storage.get ⟨j, hj⟩).1 = k + 1 →
      (pipelineRun storage (some f)).attached.getD j (0, none) =
        (k + 1, some ((f (storage.map Prod.snd)).getD k ""))) ∧
    (∀ k j, (f (storage.map Prod.snd)).length ≤ k → (hj : j < storage.length) →
      (storage.get ⟨j, hj⟩).1 = k + 1 →
      (pipelineRun storage (some f)).attached.getD j (0, none) = (k + 1, none)) := by
  have hatt : (pipelineRun storage (some f)).attached =
      storage.map (fun p => (p.1,
        if p.1 - 1 < (f (storage.map Prod.snd)).length
        then some ((f (storage.map Prod.snd)).getD (p.1 - 1) "") else none)) := rfl
  have hmain : ∀ j, (hj : j < storage.length) →
      (pipelineRun storage (some f)).attached.getD j (0, none) =
        ((storage.get ⟨j, hj⟩).1,
          if (storage.get ⟨j, hj⟩).1 - 1 < (f (storage.map Prod.snd)).length
          then some ((f (storage.map Prod.snd)).getD ((storage.get ⟨j, hj⟩).1 - 1) "")
          else none) := by
    intro j hj
    have hp : storage[j]? = some (storage.get ⟨j, hj⟩) := by
      rw [List.getElem?_eq_getElem hj, List.get_eq_getElem]
    rw [hatt, List.getD_eq_getElem?_getD, List.getElem?_map, hp]
    rfl
  refine ⟨rfl, ?_, ?_, ?_⟩
  · rw [hatt]
    simp
  · intro k j hk hj hid
    rw [hmain j hj, hid]
    simp only [Nat.add_sub_cancel]
    rw [if_pos hk]
  · intro k j hk hj hid
    rw [hmain j hj, hid]
    simp only [Nat.add_sub_cancel]
    rw [if_neg (by omega)]

/-- C3 witness: over the unsorted enumeration [(2, B), (1, A)] with an
identity analyzer, the article with id 1 (at position 1) receives the
result at position 0 and the article with id 2 (at position 0) receives
the result at position 1 — attachment by id, not by enumeration
position; with a one-result analyzer the article with id 2 stays
un-annotated. -/
theorem pipeline_alignment_amended_witness :
    (pipelineRun [(2, "B"), (1, "A")] (some fun ts => ts)).attached.getD 1 (0, none) =
      (1, some "B") ∧
    (pipelineRun [(2, "B"), (1, "A")] (some fun ts => ts)).attached.getD 0 (0, none) =
      (2, some "A") ∧
    (pipelineRun [(2, "B"), (1, "A")] (some fun ts => ts.take 1)).attached.getD 0 (0, none) =
      (2, none) := by
  have h1 := pipeline_alignment_amended [(2, "B"), (1, "A")] (fun ts => ts)
  have h2 := pipeline_alignment_amended [(2, "B"), (1, "A")] (fun ts => ts.take 1)
  refine ⟨?_, ?_, ?_⟩
  · exact (h1.2.2.1 0 1 (by decide) (by decide) (by decide)).trans (by decide)
  · exact (h1.2.2.1 1 0 (by decide) (by decide) (by decide)).trans (by decide)
  · exact (h2.2.2.2 1 0 (by decide) (by decide) (by decide)).trans (by decide)

/-- C9 (default analyzer invariant): constructing the pipeline with the
analyzer omitted substitutes the UDPipe analyzer, the stored analyzer is
never `None`, and in every run the analyze step runs and the per-article
`to_conllu` persistence runs for every article — the branches guarded by
the `None` test never skip. -/
theorem pipeline_default_analyzer (analyzer : Option (List String → List String))
    (model : String → String) (storage : List (Nat × String)) :
    (pipelineInit analyzer model).isSome = true ∧
    (analyzer = none → pipelineInit analyzer model = some (udpipe_analyze model)) ∧
    (pipelineRun storage (pipelineInit analyzer model)).analyzeRan = true ∧
    (pipelineRun storage (pipelineInit analyzer model)).conlluSaved = storage.map Prod.fst := by
  cases analyzer with
  | none => exact ⟨rfl, fun _ => rfl, rfl, rfl⟩
  | some a => exact ⟨rfl, fun h => Option.noConfusion h, rfl, rfl⟩

/-- C9 witness: with the analyzer omitted, the default is substituted and
`to_conllu` runs for the single article. -/
theorem pipeline_default_analyzer_witness :
    pipelineInit none (fun s => s) = some (udpipe_analyze fun s => s) ∧
    (pipelineRun [(1, "A")] (pipelineInit none fun s => s)).conlluSaved = [1] := by
  have h := pipeline_default_analyzer none (fun s => s) [(1, "A")]
  exact ⟨h.2.1 rfl, h.2.2.2.trans (by decide)⟩
